import Mathlib

/-!
Verification of the orkestra model registry, selection strategies,
multi-provider dispatch, provider model resolution, and router artifact
cache, as a shallow embedding of `src/orkestra` in Lean 4.

Conventions of the embedding:
* Python `dict`s whose iteration order matters are association lists in
  insertion order; `dict[k]` (raising `KeyError`) is `List.lookup` with the
  missing-key case mapped to `Option.none` / an explicit error value.
* Python floats are modelled as rationals; every price in the concrete
  catalog is an exact decimal.
* Functions that raise are embedded with `Except`/`Option` result types.
-/

namespace Orkestra

/-- The provider names that appear in `PROVIDER_MODELS` (src/orkestra/registry/models.py). -/
inductive PName : Type
  | google
  | anthropic
  | openai
deriving DecidableEq, Repr

/-- The string spelling of a provider name, as used by the Python dict keys. -/
def pnameStr : PName → String
  | .google => "google"
  | .anthropic => "anthropic"
  | .openai => "openai"

/-- One model's catalog entry (the inner dicts of `PROVIDER_MODELS`).
The tier is kept as a string, as in the source. -/
structure ModelInfo : Type where
  input_price : ℚ
  output_price : ℚ
  context_window : ℕ
  tier : String
deriving DecidableEq, Repr

/-- The google sub-catalog of `PROVIDER_MODELS`, in source order. -/
def googleModels : List (String × ModelInfo) :=
  [("gemini-2.5-flash-lite", ⟨0.10, 0.40, 1048576, "budget"⟩),
   ("gemini-3-flash-preview", ⟨0.50, 3.00, 1048576, "balanced"⟩),
   ("gemini-3-pro-preview", ⟨2.00, 12.00, 1048576, "premium"⟩)]

/-- The anthropic sub-catalog of `PROVIDER_MODELS`, in source order. -/
def anthropicModels : List (String × ModelInfo) :=
  [("claude-haiku-4", ⟨0.80, 4.00, 200000, "budget"⟩),
   ("claude-sonnet-4-5", ⟨3.00, 15.00, 200000, "balanced"⟩),
   ("claude-opus-4", ⟨15.00, 75.00, 200000, "premium"⟩)]

/-- The openai sub-catalog of `PROVIDER_MODELS`, in source order. -/
def openaiModels : List (String × ModelInfo) :=
  [("gpt-4o-mini", ⟨0.15, 0.60, 128000, "budget"⟩),
   ("gpt-4o", ⟨2.50, 10.00, 128000, "balanced"⟩),
   ("o3", ⟨10.00, 40.00, 200000, "premium"⟩)]

/-- `PROVIDER_MODELS` from src/orkestra/registry/models.py. -/
def PROVIDER_MODELS : PName → List (String × ModelInfo)
  | .google => googleModels
  | .anthropic => anthropicModels
  | .openai => openaiModels

/-- `DEFAULT_FALLBACK_MODELS` from src/orkestra/registry/models.py. -/
def DEFAULT_FALLBACK_MODELS : PName → String
  | .google => "gemini-3-flash-preview"
  | .anthropic => "claude-sonnet-4-5"
  | .openai => "gpt-4o"

/-- `TIER_RANK.get(tier, 0)` from src/orkestra/registry/models.py:
the dict `{"budget": 0, "balanced": 1, "premium": 2}` read with default 0. -/
def TIER_RANK (tier : String) : ℕ :=
  if tier = "budget" then 0
  else if tier = "balanced" then 1
  else if tier = "premium" then 2
  else 0

/-- `calculate_cost` from src/orkestra/registry/models.py.
`PROVIDER_MODELS[provider][model]` raises `KeyError` for an unknown model,
embedded as `none`; the provider argument ranges over the known providers. -/
def calculate_cost (provider : PName) (model : String)
    (input_tokens output_tokens : ℕ) : Option ℚ :=
  match (PROVIDER_MODELS provider).lookup model with
  | none => none
  | some info =>
      some (((input_tokens : ℚ) * info.input_price
        + (output_tokens : ℚ) * info.output_price) / 1000000)

/-- A successful association-list lookup witnesses membership. -/
theorem lookup_mem {α β : Type} [BEq α] [LawfulBEq α] :
    ∀ {l : List (α × β)} {k : α} {v : β}, l.lookup k = some v → (k, v) ∈ l := by
  intro l
  induction l with
  | nil => intro k v h; simp [List.lookup] at h
  | cons x xs ih =>
      intro k v h
      rcases x with ⟨a, b⟩
      rw [List.lookup] at h
      cases hk : k == a with
      | true =>
          rw [hk] at h
          simp only [Option.some.injEq] at h
          have ha : k = a := by
            have := hk
            simpa using this
          subst ha
          subst h
          exact List.mem_cons_self _ _
      | false =>
          rw [hk] at h
          exact List.mem_cons_of_mem _ (ih h)

/-- Every price in the concrete catalog is nonnegative. -/
theorem catalog_prices_nonneg (p : PName) :
    ∀ e ∈ PROVIDER_MODELS p,
      0 ≤ e.2.input_price ∧ 0 ≤ e.2.output_price := by
  intro e he
  cases p <;>
    simp only [PROVIDER_MODELS, googleModels, anthropicModels, openaiModels,
      List.mem_cons, List.not_mem_nil, or_false] at he <;>
    rcases he with rfl | rfl | rfl <;>
    exact ⟨by norm_num, by norm_num⟩

/-- C1: for every catalog model, `calculate_cost` is exactly the linear
formula `(i * input_price + o * output_price) / 1_000_000`; the value is
nonnegative, is 0 at zero tokens, and the concrete catalog gives
`calculate_cost google "gemini-2.5-flash-lite" 500 1000 = 0.00045`. -/
theorem calculate_cost_correct (p : PName) (m : String) (info : ModelInfo)
    (h : (PROVIDER_MODELS p).lookup m = some info) (i o : ℕ) :
    calculate_cost p m i o
        = some (((i : ℚ) * info.input_price + (o : ℚ) * info.output_price) / 1000000)
      ∧ 0 ≤ ((i : ℚ) * info.input_price + (o : ℚ) * info.output_price) / 1000000
      ∧ calculate_cost p m 0 0 = some 0
      ∧ calculate_cost PName.google "gemini-2.5-flash-lite" 500 1000 = some 0.00045 := by
  obtain ⟨hip, hop⟩ := catalog_prices_nonneg p (m, info) (lookup_mem h)
  refine ⟨by simp [calculate_cost, h], ?_, ?_, ?_⟩
  · have hi : (0 : ℚ) ≤ (i : ℚ) := by positivity
    have ho : (0 : ℚ) ≤ (o : ℚ) := by positivity
    have : (0 : ℚ) ≤ (i : ℚ) * info.input_price + (o : ℚ) * info.output_price :=
      add_nonneg (mul_nonneg hi hip) (mul_nonneg ho hop)
    positivity
  · simp [calculate_cost, h]
  · have hl : (PROVIDER_MODELS PName.google).lookup "gemini-2.5-flash-lite"
        = some ⟨0.10, 0.40, 1048576, "budget"⟩ := rfl
    simp only [calculate_cost, hl]
    norm_num

/-- Witness for C1 at google / gemini-2.5-flash-lite with 500 input and
1000 output tokens. -/
theorem calculate_cost_correct_witness :
    calculate_cost PName.google "gemini-2.5-flash-lite" 500 1000
        = some (((500 : ℚ) * (0.10 : ℚ) + (1000 : ℚ) * (0.40 : ℚ)) / 1000000)
      ∧ 0 ≤ (((500 : ℚ)) * (0.10 : ℚ) + ((1000 : ℚ)) * (0.40 : ℚ)) / 1000000
      ∧ calculate_cost PName.google "gemini-2.5-flash-lite" 0 0 = some 0
      ∧ calculate_cost PName.google "gemini-2.5-flash-lite" 500 1000 = some 0.00045 :=
  calculate_cost_correct PName.google "gemini-2.5-flash-lite"
    ⟨0.10, 0.40, 1048576, "budget"⟩ rfl 500 1000

/-- C6: `calculate_cost` is linear in the token counts: doubling both token
counts doubles the cost, for every catalog model. -/
theorem calculate_cost_linear (p : PName) (m : String) (info : ModelInfo)
    (h : (PROVIDER_MODELS p).lookup m = some info) (a b : ℕ) :
    calculate_cost p m (2 * a) (2 * b)
      = (calculate_cost p m a b).map (fun c => 2 * c) := by
  simp only [calculate_cost, h, Option.map_some']
  congr 1
  push_cast
  ring

/-- Witness for C6 at openai / gpt-4o with a = 3, b = 7. -/
theorem calculate_cost_linear_witness :
    calculate_cost PName.openai "gpt-4o" (2 * 3) (2 * 7)
      = (calculate_cost PName.openai "gpt-4o" 3 7).map (fun c => 2 * c) :=
  calculate_cost_linear PName.openai "gpt-4o" ⟨2.50, 10.00, 128000, "balanced"⟩ rfl 3 7

/-- C7: for a model not in the provider's catalog, `calculate_cost` fails
(`KeyError` in the source, `none` here) for all token counts.  The source
function only reads the catalog dicts and does arithmetic; the embedding is
a pure function, reflecting that it has no side effects. -/
theorem calculate_cost_unknown_model (p : PName) (m : String)
    (h : (PROVIDER_MODELS p).lookup m = none) (i o : ℕ) :
    calculate_cost p m i o = none := by
  simp [calculate_cost, h]

/-- Witness for C7: "claude-opus-4" is not a google model. -/
theorem calculate_cost_unknown_model_witness :
    calculate_cost PName.google "claude-opus-4" 12 34 = none :=
  calculate_cost_unknown_model PName.google "claude-opus-4" rfl 12 34

/-!
## Selection strategies (src/orkestra/registry/strategies.py)

The strategies receive `selections: dict[Provider, str]`; a `Provider`
enters the pricing lookups only through `provider._backend.name`, so a
provider is embedded as its backend name, and the dict as an association
list in insertion order with (by dict semantics) distinct keys.
-/

/-- A `Provider` instance as the strategies see it: only `_backend.name`
is consulted. -/
structure Provider : Type where
  name : PName
deriving DecidableEq, Repr

/-- `PROVIDER_MODELS[provider._backend.name][model]`, `none` on `KeyError`. -/
def modelInfo? (p : Provider) (m : String) : Option ModelInfo :=
  (PROVIDER_MODELS p.name).lookup m

/-- `info["input_price"] + info["output_price"]` of a selection entry
(0 as a junk value outside the catalog; the strategies raise before ever
using it there). -/
def entryPrice (pm : Provider × String) : ℚ :=
  match modelInfo? pm.1 pm.2 with
  | some info => info.input_price + info.output_price
  | none => 0

/-- `TIER_RANK.get(info["tier"], 0)` of a selection entry (0 outside the
catalog, as for `entryPrice`). -/
def entryRank (pm : Provider × String) : ℕ :=
  match modelInfo? pm.1 pm.2 with
  | some info => TIER_RANK info.tier
  | none => 0

/-- `info["tier"]` of a selection entry ("" outside the catalog). -/
def entryTier (pm : Provider × String) : String :=
  match modelInfo? pm.1 pm.2 with
  | some info => info.tier
  | none => ""

/-- Exceptions the strategy functions can raise. -/
inductive StratErr : Type
  | keyError
  | indexError
deriving DecidableEq, Repr

/-- The shared loop shape of `cheapest` and `smartest`: scan the list,
replacing the current best exactly when the new candidate is strictly
smaller under `key`.  Ties keep the earlier element. -/
def selGo {α β : Type} [LinearOrder β] (key : α → β) : List α → α → α
  | [], b => b
  | x :: xs, b => selGo key xs (if key x < key b then x else b)

/-- The element `selGo` picks splits the scanned list into a strict prefix
it beats strictly and a suffix it is less-or-equal to: it is the first
element attaining the minimum of `key`. -/
theorem selGo_decomp {α β : Type} [LinearOrder β] (key : α → β) :
    ∀ (l : List α) (b : α), ∃ l₁ l₂,
      b :: l = l₁ ++ selGo key l b :: l₂
      ∧ (∀ x ∈ l₁, key (selGo key l b) < key x)
      ∧ (∀ x ∈ l₂, key (selGo key l b) ≤ key x) := by
  intro l
  induction l with
  | nil =>
      intro b
      exact ⟨[], [], rfl, by simp, by simp⟩
  | cons x xs ih =>
      intro b
      by_cases hx : key x < key b
      · have hsel : selGo key (x :: xs) b = selGo key xs x := by
          simp [selGo, hx]
        obtain ⟨l₁, l₂, hdec, h₁, h₂⟩ := ih x
        rw [hsel]
        have hwx : key (selGo key xs x) ≤ key x := by
          cases l₁ with
          | nil =>
              simp only [List.nil_append] at hdec
              injection hdec with h1 _
              rw [← h1]
          | cons a t =>
              have hax : a = x := by
                simp only [List.cons_append] at hdec
                injection hdec with h1 _
                exact h1.symm
              exact le_of_lt (h₁ x (by rw [← hax]; exact List.mem_cons_self a t))
        refine ⟨b :: l₁, l₂, ?_, ?_, h₂⟩
        · simpa [List.cons_append] using congrArg (List.cons b) hdec
        · intro y hy
          rcases List.mem_cons.mp hy with rfl | hy'
          · exact lt_of_le_of_lt hwx hx
          · exact h₁ y hy'
      · have hsel : selGo key (x :: xs) b = selGo key xs b := by
          simp [selGo, hx]
        have hbx : key b ≤ key x := le_of_not_lt hx
        obtain ⟨l₁, l₂, hdec, h₁, h₂⟩ := ih b
        rw [hsel]
        cases l₁ with
        | nil =>
            simp only [List.nil_append] at hdec
            injection hdec with h1 h2
            refine ⟨[], x :: xs, by rw [← h1, List.nil_append], by simp, ?_⟩
            intro y hy
            rcases List.mem_cons.mp hy with rfl | hy'
            · rw [← h1]; exact hbx
            · exact h₂ y (h2 ▸ hy')
        | cons a t =>
            simp only [List.cons_append] at hdec
            injection hdec with h1 h2
            have hwb : key (selGo key xs b) < key b :=
              h₁ b (by rw [h1]; exact List.mem_cons_self a t)
            refine ⟨b :: x :: t, l₂, ?_, ?_, h₂⟩
            · simp only [List.cons_append]
              exact congrArg (fun ys => b :: x :: ys) h2
            · intro y hy
              rcases List.mem_cons.mp hy with rfl | hy'
              · exact hwb
              rcases List.mem_cons.mp hy' with rfl | hy''
              · exact lt_of_lt_of_le hwb hbx
              · exact h₁ y (h1 ▸ List.mem_cons_of_mem a hy'')

/-- `selGo` returns an element of the scanned list. -/
theorem selGo_mem {α β : Type} [LinearOrder β] (key : α → β) (l : List α) (b : α) :
    selGo key l b ∈ b :: l := by
  obtain ⟨l₁, l₂, hdec, _, _⟩ := selGo_decomp key l b
  rw [hdec]
  exact List.mem_append_right _ (List.mem_cons_self _ _)

/-- `selGo` attains the minimum of `key` over the scanned list. -/
theorem selGo_min {α β : Type} [LinearOrder β] (key : α → β) (l : List α) (b : α) :
    ∀ y ∈ b :: l, key (selGo key l b) ≤ key y := by
  obtain ⟨l₁, l₂, hdec, h₁, h₂⟩ := selGo_decomp key l b
  intro y hy
  rw [hdec] at hy
  rcases List.mem_append.mp hy with hy' | hy'
  · exact le_of_lt (h₁ y hy')
  · rcases List.mem_cons.mp hy' with rfl | hy''
    · exact le_refl _
    · exact h₂ y hy''

/-- The loop of `cheapest`: `best`/`best_price` carried as one optional
pair.  The source initializes `best_price = float("inf")`, so the first
candidate (every catalog price is finite) always replaces the initial
state; that is the `none` accumulator case here. -/
def cheapestGo : List (Provider × String) → Option ((Provider × String) × ℚ) →
    Except StratErr (Option (Provider × String))
  | [], best => .ok (best.map Prod.fst)
  | pm :: rest, best =>
      match modelInfo? pm.1 pm.2 with
      | none => .error .keyError
      | some info =>
          match best with
          | none =>
              cheapestGo rest (some (pm, info.input_price + info.output_price))
          | some bb =>
              if info.input_price + info.output_price < bb.2 then
                cheapestGo rest (some (pm, info.input_price + info.output_price))
              else cheapestGo rest (some bb)

/-- `cheapest` from src/orkestra/registry/strategies.py (the `providers`
argument is unused there as well). -/
def cheapest (providers : List Provider) (selections : List (Provider × String)) :
    Except StratErr (Option (Provider × String)) :=
  cheapestGo selections none

theorem cheapestGo_eq_selGo (l : List (Provider × String)) :
    ∀ b : Provider × String,
      (∀ pm ∈ l, (modelInfo? pm.1 pm.2).isSome) →
      cheapestGo l (some (b, entryPrice b)) = .ok (some (selGo entryPrice l b)) := by
  induction l with
  | nil => intro b _; rfl
  | cons pm rest ih =>
      intro b hpres
      obtain ⟨info, hinfo⟩ :=
        Option.isSome_iff_exists.mp (hpres pm (List.mem_cons_self _ _))
      have hprice : info.input_price + info.output_price = entryPrice pm := by
        simp [entryPrice, hinfo]
      have hrest : ∀ x ∈ rest, (modelInfo? x.1 x.2).isSome := fun x hx =>
        hpres x (List.mem_cons_of_mem _ hx)
      simp only [cheapestGo, hinfo]
      rw [hprice]
      by_cases hc : entryPrice pm < entryPrice b
      · rw [if_pos hc, ih pm hrest]
        simp [selGo, hc]
      · rw [if_neg hc, ih b hrest]
        simp [selGo, hc]

/-- C2: on a non-empty selections mapping whose models are all in the
catalog, `cheapest` returns an entry of the mapping whose
`input_price + output_price` is minimal, and every entry listed before the
winner is strictly more expensive — i.e. ties go to the entry first
encountered in the mapping's iteration order. -/
theorem cheapest_correct (providers : List Provider) (sel : List (Provider × String))
    (hne : sel ≠ [])
    (hpres : ∀ pm ∈ sel, (modelInfo? pm.1 pm.2).isSome)
    (hkeys : (sel.map Prod.fst).Nodup) :
    ∃ w l₁ l₂, cheapest providers sel = .ok (some w)
      ∧ sel = l₁ ++ w :: l₂
      ∧ (∀ x ∈ sel, entryPrice w ≤ entryPrice x)
      ∧ (∀ x ∈ l₁, entryPrice w < entryPrice x) := by
  obtain ⟨pm, rest, rfl⟩ := List.exists_cons_of_ne_nil hne
  obtain ⟨info, hinfo⟩ :=
    Option.isSome_iff_exists.mp (hpres pm (List.mem_cons_self _ _))
  have hprice : info.input_price + info.output_price = entryPrice pm := by
    simp [entryPrice, hinfo]
  have hrest : ∀ x ∈ rest, (modelInfo? x.1 x.2).isSome := fun x hx =>
    hpres x (List.mem_cons_of_mem _ hx)
  have hstep : cheapest providers (pm :: rest)
      = cheapestGo rest (some (pm, entryPrice pm)) := by
    simp only [cheapest, cheapestGo, hinfo]
    rw [hprice]
  obtain ⟨l₁, l₂, hdec, h₁, _⟩ := selGo_decomp entryPrice rest pm
  refine ⟨selGo entryPrice rest pm, l₁, l₂, ?_, hdec, ?_, h₁⟩
  · rw [hstep, cheapestGo_eq_selGo rest pm hrest]
  · exact fun x hx => selGo_min entryPrice rest pm x hx

/-- Witness for C2: the spec's example mapping
`{google: gemini-2.5-flash-lite, openai: gpt-4o-mini}`. -/
theorem cheapest_correct_witness :
    ∃ w l₁ l₂,
      cheapest [⟨PName.google⟩, ⟨PName.openai⟩]
          [(⟨PName.google⟩, "gemini-2.5-flash-lite"), (⟨PName.openai⟩, "gpt-4o-mini")]
        = .ok (some w)
      ∧ [(⟨PName.google⟩, "gemini-2.5-flash-lite"), (⟨PName.openai⟩, "gpt-4o-mini")]
          = l₁ ++ w :: l₂
      ∧ (∀ x ∈ [(⟨PName.google⟩, "gemini-2.5-flash-lite"),
            (⟨PName.openai⟩, "gpt-4o-mini")], entryPrice w ≤ entryPrice x)
      ∧ (∀ x ∈ l₁, entryPrice w < entryPrice x) :=
  cheapest_correct _ _ (by simp) (by decide) (by decide)

/-- Every `TIER_RANK` value is at most 2 (the default for an unknown tier
is 0). -/
theorem TIER_RANK_le_two (t : String) : TIER_RANK t ≤ 2 := by
  unfold TIER_RANK
  split
  · omega
  split
  · omega
  split <;> omega

theorem entryRank_le_two (pm : Provider × String) : entryRank pm ≤ 2 := by
  unfold entryRank
  split
  · exact TIER_RANK_le_two _
  · omega

/-- The order `smartest` minimizes: rank descending, then price ascending,
encoded lexicographically (ranks are at most 2, so `2 - rank` flips the
rank order). -/
def smartKey (pm : Provider × String) : Lex (ℕ × ℚ) :=
  toLex (2 - entryRank pm, entryPrice pm)

theorem smartKey_lt_iff (a b : Provider × String) :
    smartKey a < smartKey b
      ↔ (entryRank b < entryRank a
          ∨ (entryRank a = entryRank b ∧ entryPrice a < entryPrice b)) := by
  have ha := entryRank_le_two a
  have hb := entryRank_le_two b
  simp only [smartKey, Prod.Lex.lt_iff]
  constructor
  · rintro (h | ⟨h1, h2⟩)
    · left; omega
    · right; exact ⟨by omega, h2⟩
  · rintro (h | ⟨h1, h2⟩)
    · left; omega
    · right; exact ⟨by omega, h2⟩

theorem smartKey_le_iff (a b : Provider × String) :
    smartKey a ≤ smartKey b
      ↔ (entryRank b < entryRank a
          ∨ (entryRank a = entryRank b ∧ entryPrice a ≤ entryPrice b)) := by
  have ha := entryRank_le_two a
  have hb := entryRank_le_two b
  simp only [smartKey, Prod.Lex.le_iff]
  constructor
  · rintro (h | ⟨h1, h2⟩)
    · left; omega
    · right; exact ⟨by omega, h2⟩
  · rintro (h | ⟨h1, h2⟩)
    · left; omega
    · right; exact ⟨by omega, h2⟩

/-- The loop of `smartest`, carrying `(best, best_rank, best_price)`.  The
source initializes `best_rank = -1`, `best_price = float("inf")`, so the
first candidate (rank is a natural number) always replaces the initial
state; that is the `none` accumulator case here.  The replacement test is
the source's `rank > best_rank or (rank == best_rank and price <
best_price)`. -/
def smartestGo : List (Provider × String) → Option ((Provider × String) × ℕ × ℚ) →
    Except StratErr (Option (Provider × String))
  | [], best => .ok (best.map Prod.fst)
  | pm :: rest, best =>
      match modelInfo? pm.1 pm.2 with
      | none => .error .keyError
      | some info =>
          match best with
          | none =>
              smartestGo rest
                (some (pm, TIER_RANK info.tier, info.input_price + info.output_price))
          | some bb =>
              if bb.2.1 < TIER_RANK info.tier
                  ∨ (TIER_RANK info.tier = bb.2.1
                      ∧ info.input_price + info.output_price < bb.2.2) then
                smartestGo rest
                  (some (pm, TIER_RANK info.tier, info.input_price + info.output_price))
              else smartestGo rest (some bb)

/-- `smartest` from src/orkestra/registry/strategies.py. -/
def smartest (providers : List Provider) (selections : List (Provider × String)) :
    Except StratErr (Option (Provider × String)) :=
  smartestGo selections none

theorem smartestGo_eq_selGo (l : List (Provider × String)) :
    ∀ b : Provider × String,
      (∀ pm ∈ l, (modelInfo? pm.1 pm.2).isSome) →
      smartestGo l (some (b, entryRank b, entryPrice b))
        = .ok (some (selGo smartKey l b)) := by
  induction l with
  | nil => intro b _; rfl
  | cons pm rest ih =>
      intro b hpres
      obtain ⟨info, hinfo⟩ :=
        Option.isSome_iff_exists.mp (hpres pm (List.mem_cons_self _ _))
      have hrank : TIER_RANK info.tier = entryRank pm := by
        simp [entryRank, hinfo]
      have hprice : info.input_price + info.output_price = entryPrice pm := by
        simp [entryPrice, hinfo]
      have hrest : ∀ x ∈ rest, (modelInfo? x.1 x.2).isSome := fun x hx =>
        hpres x (List.mem_cons_of_mem _ hx)
      simp only [smartestGo, hinfo]
      rw [hrank, hprice]
      by_cases hc : entryRank b < entryRank pm
          ∨ (entryRank pm = entryRank b ∧ entryPrice pm < entryPrice b)
      · rw [if_pos hc, ih pm hrest]
        simp only [selGo]
        rw [if_pos ((smartKey_lt_iff pm b).mpr hc)]
      · rw [if_neg hc, ih b hrest]
        simp only [selGo]
        rw [if_neg (fun h => hc ((smartKey_lt_iff pm b).mp h))]

/-- C3: on a non-empty selections mapping whose models are all in the
catalog, `smartest` returns an entry of maximal tier rank; among entries of
that rank its price is minimal; and every entry listed before the winner is
either of strictly lower rank or of equal rank and strictly higher price —
ties go to the entry first encountered in iteration order. -/
theorem smartest_correct (providers : List Provider) (sel : List (Provider × String))
    (hne : sel ≠ [])
    (hpres : ∀ pm ∈ sel, (modelInfo? pm.1 pm.2).isSome)
    (hkeys : (sel.map Prod.fst).Nodup) :
    ∃ w l₁ l₂, smartest providers sel = .ok (some w)
      ∧ sel = l₁ ++ w :: l₂
      ∧ (∀ x ∈ sel, entryRank x ≤ entryRank w)
      ∧ (∀ x ∈ sel, entryRank x = entryRank w → entryPrice w ≤ entryPrice x)
      ∧ (∀ x ∈ l₁, entryRank x < entryRank w
          ∨ (entryRank x = entryRank w ∧ entryPrice w < entryPrice x)) := by
  obtain ⟨pm, rest, rfl⟩ := List.exists_cons_of_ne_nil hne
  obtain ⟨info, hinfo⟩ :=
    Option.isSome_iff_exists.mp (hpres pm (List.mem_cons_self _ _))
  have hrank : TIER_RANK info.tier = entryRank pm := by
    simp [entryRank, hinfo]
  have hprice : info.input_price + info.output_price = entryPrice pm := by
    simp [entryPrice, hinfo]
  have hrest : ∀ x ∈ rest, (modelInfo? x.1 x.2).isSome := fun x hx =>
    hpres x (List.mem_cons_of_mem _ hx)
  have hstep : smartest providers (pm :: rest)
      = smartestGo rest (some (pm, entryRank pm, entryPrice pm)) := by
    simp only [smartest, smartestGo, hinfo]
    rw [hrank, hprice]
  obtain ⟨l₁, l₂, hdec, h₁, _⟩ := selGo_decomp smartKey rest pm
  refine ⟨selGo smartKey rest pm, l₁, l₂, ?_, hdec, ?_, ?_, ?_⟩
  · rw [hstep, smartestGo_eq_selGo rest pm hrest]
  · intro x hx
    rcases (smartKey_le_iff _ x).mp (selGo_min smartKey rest pm x hx) with h | ⟨h1, _⟩
    · exact le_of_lt h
    · exact le_of_eq h1.symm
  · intro x hx heq
    rcases (smartKey_le_iff _ x).mp (selGo_min smartKey rest pm x hx) with h | ⟨_, h2⟩
    · exact absurd heq (by omega)
    · exact h2
  · intro x hx
    rcases (smartKey_lt_iff _ x).mp (h₁ x hx) with h | ⟨h1, h2⟩
    · exact Or.inl h
    · exact Or.inr ⟨h1.symm, h2⟩

/-- Witness for C3: the spec's example mapping
`{google: gemini-3-pro-preview (premium), openai: gpt-4o-mini (budget)}`. -/
theorem smartest_correct_witness :
    ∃ w l₁ l₂,
      smartest [⟨PName.google⟩, ⟨PName.openai⟩]
          [(⟨PName.google⟩, "gemini-3-pro-preview"), (⟨PName.openai⟩, "gpt-4o-mini")]
        = .ok (some w)
      ∧ [(⟨PName.google⟩, "gemini-3-pro-preview"), (⟨PName.openai⟩, "gpt-4o-mini")]
          = l₁ ++ w :: l₂
      ∧ (∀ x ∈ [(⟨PName.google⟩, "gemini-3-pro-preview"),
            (⟨PName.openai⟩, "gpt-4o-mini")], entryRank x ≤ entryRank w)
      ∧ (∀ x ∈ [(⟨PName.google⟩, "gemini-3-pro-preview"),
            (⟨PName.openai⟩, "gpt-4o-mini")],
          entryRank x = entryRank w → entryPrice w ≤ entryPrice x)
      ∧ (∀ x ∈ l₁, entryRank x < entryRank w
          ∨ (entryRank x = entryRank w ∧ entryPrice w < entryPrice x)) :=
  smartest_correct _ _ (by simp) (by decide) (by decide)

/-- The tuple `(price, provider, model)` the `balanced` strategy builds for
a selection entry. -/
def entryTup (pm : Provider × String) : ℚ × Provider × String :=
  (entryPrice pm, pm)

/-- The loop of `balanced` building `(balanced_options, all_options)` in
iteration order. -/
def balancedGo : List (Provider × String) →
    Except StratErr (List (ℚ × Provider × String) × List (ℚ × Provider × String))
  | [] => .ok ([], [])
  | pm :: rest =>
      match modelInfo? pm.1 pm.2 with
      | none => .error .keyError
      | some info =>
          match balancedGo rest with
          | .error e => .error e
          | .ok (bal, all) =>
              .ok ((if info.tier = "balanced"
                  then (info.input_price + info.output_price, pm) :: bal
                  else bal),
                (info.input_price + info.output_price, pm) :: all)

/-- The ascending order of the tuples `(price, provider, model)` that
`balanced` sorts by: price, then provider name, then model name,
lexicographically.  The source sorts Python tuples whose middle component
is the `Provider` object itself; Python only compares that component when
two prices are equal, which cannot happen for distinct providers of the
concrete catalog (its nine price sums are pairwise distinct), so on the
strategies' input domain this order is observationally the source's. -/
def key3 (e : ℚ × Provider × String) : Lex (ℚ × Lex (String × String)) :=
  toLex (e.1, toLex (pnameStr e.2.1.name, e.2.2))

/-- Boolean comparison used for sorting the option tuples. -/
def tupLe (a b : ℚ × Provider × String) : Bool :=
  decide (key3 a ≤ key3 b)

/-- `balanced` from src/orkestra/registry/strategies.py: prefer the sorted
balanced-tier options, otherwise the sorted full option list; `[0]` on an
empty list raises `IndexError`. -/
def balanced (providers : List Provider) (selections : List (Provider × String)) :
    Except StratErr (Provider × String) :=
  match balancedGo selections with
  | .error e => .error e
  | .ok (balOpts, allOpts) =>
      if balOpts = [] then
        match allOpts.mergeSort tupLe with
        | [] => .error .indexError
        | e :: _ => .ok e.2
      else
        match balOpts.mergeSort tupLe with
        | [] => .error .indexError
        | e :: _ => .ok e.2

theorem tupLe_trans :
    ∀ a b c, tupLe a b = true → tupLe b c = true → tupLe a c = true := by
  intro a b c h1 h2
  simp only [tupLe, decide_eq_true_eq] at h1 h2 ⊢
  exact le_trans h1 h2

theorem tupLe_total : ∀ a b, (tupLe a b || tupLe b a) = true := by
  intro a b
  simp only [tupLe, Bool.or_eq_true, decide_eq_true_eq]
  exact le_total _ _

/-- The head of the sorted option list is a member attaining the minimum
of the tuple order. -/
theorem mergeSort_head_min {l : List (ℚ × Provider × String)}
    {e : ℚ × Provider × String} {rest : List (ℚ × Provider × String)}
    (h : l.mergeSort tupLe = e :: rest) :
    e ∈ l ∧ ∀ x ∈ l, key3 e ≤ key3 x := by
  have hperm := List.mergeSort_perm l tupLe
  have hmem : e ∈ l := hperm.mem_iff.mp (by rw [h]; exact List.mem_cons_self _ _)
  refine ⟨hmem, ?_⟩
  intro x hx
  have hx' : x ∈ e :: rest := by
    rw [← h]
    exact hperm.mem_iff.mpr hx
  rcases List.mem_cons.mp hx' with rfl | hx''
  · exact le_refl _
  · have hsorted := List.sorted_mergeSort tupLe_trans tupLe_total l
    rw [h] at hsorted
    have ht := (List.pairwise_cons.mp hsorted).1 x hx''
    simpa [tupLe, decide_eq_true_eq] using ht

theorem balancedGo_eq (l : List (Provider × String))
    (hpres : ∀ pm ∈ l, (modelInfo? pm.1 pm.2).isSome) :
    balancedGo l = .ok
      (((l.filter fun pm => entryTier pm == "balanced").map entryTup),
        l.map entryTup) := by
  induction l with
  | nil => rfl
  | cons pm rest ih =>
      obtain ⟨info, hinfo⟩ :=
        Option.isSome_iff_exists.mp (hpres pm (List.mem_cons_self _ _))
      have hrest : ∀ x ∈ rest, (modelInfo? x.1 x.2).isSome := fun x hx =>
        hpres x (List.mem_cons_of_mem _ hx)
      have htier : entryTier pm = info.tier := by simp [entryTier, hinfo]
      have htup : (info.input_price + info.output_price, pm) = entryTup pm := by
        simp [entryTup, entryPrice, hinfo]
      simp only [balancedGo, hinfo, ih hrest]
      by_cases hb : info.tier = "balanced"
      · rw [if_pos hb]
        simp [List.filter_cons, htier, hb, htup]
      · rw [if_neg hb]
        simp [List.filter_cons, htier, hb, htup]

/-- C4: on a non-empty selections mapping whose models are all in the
catalog, `balanced` returns an entry of the mapping; when the mapping has
balanced-tier entries the winner is balanced-tier and its
`(price, provider name, model name)` tuple is lexicographically minimal
among the balanced-tier entries; otherwise that tuple is minimal among all
entries — the tie-break is the ascending sort of those tuples. -/
theorem balanced_correct (providers : List Provider) (sel : List (Provider × String))
    (hne : sel ≠ [])
    (hpres : ∀ pm ∈ sel, (modelInfo? pm.1 pm.2).isSome)
    (hkeys : (sel.map Prod.fst).Nodup) :
    ∃ w, balanced providers sel = .ok w
      ∧ w ∈ sel
      ∧ ((sel.filter fun pm => entryTier pm == "balanced") ≠ [] →
          entryTier w = "balanced"
          ∧ ∀ x ∈ sel, entryTier x = "balanced" →
              key3 (entryTup w) ≤ key3 (entryTup x))
      ∧ ((sel.filter fun pm => entryTier pm == "balanced") = [] →
          ∀ x ∈ sel, key3 (entryTup w) ≤ key3 (entryTup x)) := by
  have hgo := balancedGo_eq sel hpres
  by_cases hbe : (sel.filter fun pm => entryTier pm == "balanced") = []
  · have hne' : sel.map entryTup ≠ [] := by
      intro hnil
      exact hne (List.map_eq_nil_iff.mp hnil)
    obtain ⟨e, rest', hms⟩ :
        ∃ e rest', (sel.map entryTup).mergeSort tupLe = e :: rest' := by
      cases hms : (sel.map entryTup).mergeSort tupLe with
      | nil =>
          exfalso
          have hp := List.mergeSort_perm (sel.map entryTup) tupLe
          rw [hms] at hp
          exact hne' hp.nil_eq.symm
      | cons e rest' => exact ⟨e, rest', rfl⟩
    obtain ⟨hmem, hmin⟩ := mergeSort_head_min hms
    obtain ⟨pm', hpm', hepm⟩ := List.mem_map.mp hmem
    have he2 : e.2 = pm' := by rw [← hepm]; rfl
    have hbal : balanced providers sel = .ok e.2 := by
      simp only [balanced, hgo]
      rw [if_pos (by rw [hbe]; rfl), hms]
    refine ⟨e.2, hbal, by rw [he2]; exact hpm', fun h => absurd hbe h, ?_⟩
    intro _ x hx
    have : entryTup e.2 = e := by rw [he2, ← hepm]
    rw [this]
    exact hmin (entryTup x) (List.mem_map_of_mem _ hx)
  · obtain ⟨e, rest', hms⟩ :
        ∃ e rest',
          ((sel.filter fun pm => entryTier pm == "balanced").map entryTup).mergeSort tupLe
            = e :: rest' := by
      cases hms :
          ((sel.filter fun pm => entryTier pm == "balanced").map entryTup).mergeSort tupLe with
      | nil =>
          exfalso
          have hp := List.mergeSort_perm
            ((sel.filter fun pm => entryTier pm == "balanced").map entryTup) tupLe
          rw [hms] at hp
          exact hbe (List.map_eq_nil_iff.mp hp.nil_eq.symm)
      | cons e rest' => exact ⟨e, rest', rfl⟩
    obtain ⟨hmem, hmin⟩ := mergeSort_head_min hms
    obtain ⟨pm', hpm', hepm⟩ := List.mem_map.mp hmem
    obtain ⟨hpmsel, hpmtier⟩ := List.mem_filter.mp hpm'
    have he2 : e.2 = pm' := by rw [← hepm]; rfl
    have hbal : balanced providers sel = .ok e.2 := by
      simp only [balanced, hgo]
      rw [if_neg (fun h => hbe (List.map_eq_nil_iff.mp h)), hms]
    have htup : entryTup e.2 = e := by rw [he2, ← hepm]
    refine ⟨e.2, hbal, by rw [he2]; exact hpmsel, ?_, fun h => absurd h hbe⟩
    intro _
    constructor
    · rw [he2]
      exact of_decide_eq_true (by simpa using hpmtier)
    · intro x hx hxtier
      rw [htup]
      refine hmin (entryTup x) (List.mem_map_of_mem _ ?_)
      exact List.mem_filter.mpr ⟨hx, by simpa using hxtier⟩

/-- Witness for C4: google's budget model together with anthropic's
balanced model. -/
theorem balanced_correct_witness :
    ∃ w,
      balanced [⟨PName.google⟩, ⟨PName.anthropic⟩]
          [(⟨PName.google⟩, "gemini-2.5-flash-lite"), (⟨PName.anthropic⟩, "claude-sonnet-4-5")]
        = .ok w
      ∧ w ∈ [(⟨PName.google⟩, "gemini-2.5-flash-lite"),
          (⟨PName.anthropic⟩, "claude-sonnet-4-5")]
      ∧ (([(⟨PName.google⟩, "gemini-2.5-flash-lite"),
            (⟨PName.anthropic⟩, "claude-sonnet-4-5")].filter
              fun pm => entryTier pm == "balanced") ≠ [] →
          entryTier w = "balanced"
          ∧ ∀ x ∈ [(⟨PName.google⟩, "gemini-2.5-flash-lite"),
              (⟨PName.anthropic⟩, "claude-sonnet-4-5")],
              entryTier x = "balanced" → key3 (entryTup w) ≤ key3 (entryTup x))
      ∧ (([(⟨PName.google⟩, "gemini-2.5-flash-lite"),
            (⟨PName.anthropic⟩, "claude-sonnet-4-5")].filter
              fun pm => entryTier pm == "balanced") = [] →
          ∀ x ∈ [(⟨PName.google⟩, "gemini-2.5-flash-lite"),
              (⟨PName.anthropic⟩, "claude-sonnet-4-5")],
              key3 (entryTup w) ≤ key3 (entryTup x)) :=
  balanced_correct _ _ (by simp) (by decide) (by decide)

/-!
## MultiProvider (src/orkestra/multi_provider.py)

`MultiProvider.chat` / `stream_text` validate the strategy name against the
`STRATEGIES` dict, then ask each provider's router for a model
(`provider._router.route(prompt)`), apply the strategy, and call the
winning backend.  The embedding covers the selection of the winning
(provider, model) pair; per-provider routing is the caller-supplied
function `route`.
-/

/-- The keys of the `STRATEGIES` dict, in insertion order. -/
def STRATEGIES_keys : List String := ["cheapest", "smartest", "balanced"]

/-- Exceptions `MultiProvider.chat`/`stream_text` can raise while selecting
the winner: the `ValueError` for an unknown strategy, a strategy exception,
or the `TypeError` from unpacking a `None` strategy result. -/
inductive MPErr : Type
  | unknownStrategy
  | strat (e : StratErr)
  | noneUnpack
deriving DecidableEq, Repr

/-- `STRATEGIES[strategy](providers, selections)` followed by the unpacking
`winner, model = ...`. -/
def applyStrategy (strategy : String) (providers : List Provider)
    (selections : List (Provider × String)) : Except MPErr (Provider × String) :=
  if strategy = "cheapest" then
    match cheapest providers selections with
    | .error e => .error (.strat e)
    | .ok none => .error .noneUnpack
    | .ok (some w) => .ok w
  else if strategy = "smartest" then
    match smartest providers selections with
    | .error e => .error (.strat e)
    | .ok none => .error .noneUnpack
    | .ok (some w) => .ok w
  else if strategy = "balanced" then
    match balanced providers selections with
    | .error e => .error (.strat e)
    | .ok w => .ok w
  else .error .unknownStrategy

/-- `MultiProvider.chat` up to the choice of the winning (provider, model)
pair: the strategy name is validated first, then each provider is routed. -/
def multiProviderChat (providers : List Provider)
    (route : Provider → String → String) (prompt : String) (strategy : String) :
    Except MPErr (Provider × String) :=
  if strategy ∉ STRATEGIES_keys then .error .unknownStrategy
  else applyStrategy strategy providers (providers.map fun p => (p, route p prompt))

/-- `MultiProvider.stream_text` up to the same selection (its validation
and selection code is identical to `chat`). -/
def multiProviderStream (providers : List Provider)
    (route : Provider → String → String) (prompt : String) (strategy : String) :
    Except MPErr (Provider × String) :=
  if strategy ∉ STRATEGIES_keys then .error .unknownStrategy
  else applyStrategy strategy providers (providers.map fun p => (p, route p prompt))

/-- C5: for a strategy name outside {cheapest, smartest, balanced}, both
`chat` and `stream_text` fail with the unknown-strategy error, and the
result does not depend on the routing function — no provider's router is
consulted before the check. -/
theorem multiProvider_unknown_strategy (providers : List Provider)
    (r₁ r₂ : Provider → String → String) (strategy prompt : String)
    (h : strategy ∉ STRATEGIES_keys) :
    multiProviderChat providers r₁ prompt strategy = .error .unknownStrategy
    ∧ multiProviderStream providers r₁ prompt strategy = .error .unknownStrategy
    ∧ multiProviderChat providers r₁ prompt strategy
        = multiProviderChat providers r₂ prompt strategy
    ∧ multiProviderStream providers r₁ prompt strategy
        = multiProviderStream providers r₂ prompt strategy := by
  refine ⟨?_, ?_, ?_, ?_⟩ <;>
    simp [multiProviderChat, multiProviderStream, if_pos h, h]

/-- Witness for C5 at the spec's example name "fastest". -/
theorem multiProvider_unknown_strategy_witness :
    multiProviderChat [⟨PName.google⟩] (fun _ _ => "gemini-2.5-flash-lite")
        "hello" "fastest" = .error .unknownStrategy
    ∧ multiProviderStream [⟨PName.google⟩] (fun _ _ => "gemini-2.5-flash-lite")
        "hello" "fastest" = .error .unknownStrategy
    ∧ multiProviderChat [⟨PName.google⟩] (fun _ _ => "gemini-2.5-flash-lite")
        "hello" "fastest"
      = multiProviderChat [⟨PName.google⟩] (fun _ _ => "gemini-3-pro-preview")
        "hello" "fastest"
    ∧ multiProviderStream [⟨PName.google⟩] (fun _ _ => "gemini-2.5-flash-lite")
        "hello" "fastest"
      = multiProviderStream [⟨PName.google⟩] (fun _ _ => "gemini-3-pro-preview")
        "hello" "fastest" :=
  multiProvider_unknown_strategy _ _ _ "fastest" "hello" (by decide)

/-!
## Provider model resolution (src/orkestra/provider.py)

`Provider.__init__` stores `_smart_routing`, builds `_router` (smart
routing) or `_default_model` (fixed routing); `_resolve_model` picks the
model for a `chat`/`stream_text` call.  The router instance is embedded by
its `route` function.  `chat` and `stream_text` both resolve the model by
calling `_resolve_model(data.model, data.prompt)` in their final/pre
handler; with no registered middleware, `data.model` and `data.prompt` are
the caller's arguments.
-/

/-- The `ValueError`s of `Provider.__init__` and `_resolve_model`. -/
inductive ValErr : Type
  | valueError
deriving DecidableEq, Repr

/-- The `Provider` state relevant to model resolution. -/
structure ProviderData : Type where
  name : PName
  smart_routing : Bool
  default_model : Option String
  route : String → String

/-- `Provider.__init__(name, api_key, smart_routing, default_model)`;
`route` stands for the `KNNRouter` the smart-routing branch constructs. -/
def mkProvider (name : PName) (api_key : String) (smart_routing : Bool)
    (default_model : Option String) (route : String → String) :
    Except ValErr ProviderData :=
  if smart_routing = false ∧ default_model = some "" then .error .valueError
  else if smart_routing then .ok ⟨name, true, none, route⟩
  else .ok ⟨name, false,
    some (default_model.getD (DEFAULT_FALLBACK_MODELS name)), route⟩

/-- `Provider._resolve_model(model, prompt)`. -/
def _resolve_model (p : ProviderData) (model : Option String) (prompt : String) :
    Except ValErr (Option String) :=
  if p.smart_routing = false then
    if model = some "" then .error .valueError
    else .ok (if model.isSome then model else p.default_model)
  else .ok (some (p.route prompt))

/-- The model `Provider.chat` resolves for the backend call. -/
def chatResolvedModel (p : ProviderData) (model : Option String) (prompt : String) :
    Except ValErr (Option String) :=
  _resolve_model p model prompt

/-- The model `Provider.stream_text` resolves for the backend stream. -/
def streamResolvedModel (p : ProviderData) (model : Option String) (prompt : String) :
    Except ValErr (Option String) :=
  _resolve_model p model prompt

/-- C10: a provider constructed with `smart_routing=True` resolves every
`chat`/`stream_text` call to `route(prompt)`; the caller-supplied `model`
argument has no effect on the resolved model. -/
theorem smart_routing_ignores_model (name : PName) (api_key : String)
    (dm : Option String) (route : String → String) (p : ProviderData)
    (h : mkProvider name api_key true dm route = .ok p)
    (m : Option String) (prompt : String) :
    chatResolvedModel p m prompt = .ok (some (route prompt))
    ∧ streamResolvedModel p m prompt = .ok (some (route prompt))
    ∧ (∀ m2, chatResolvedModel p m prompt = chatResolvedModel p m2 prompt
        ∧ streamResolvedModel p m prompt = streamResolvedModel p m2 prompt) := by
  have hp : p = ProviderData.mk name true none route := by
    simp only [mkProvider, Bool.true_eq_false, false_and, if_false, if_true] at h
    · exact ((Except.ok.injEq _ _).mp h).symm
  subst hp
  refine ⟨?_, ?_, fun m2 => ⟨?_, ?_⟩⟩ <;>
    simp [chatResolvedModel, streamResolvedModel, _resolve_model]

/-- Witness for C10: a google smart-routing provider whose router answers
"gemini-2.5-flash-lite" ignores an explicit "gemini-3-pro-preview". -/
theorem smart_routing_ignores_model_witness :
    chatResolvedModel ⟨PName.google, true, none, fun _ => "gemini-2.5-flash-lite"⟩
        (some "gemini-3-pro-preview") "hi"
      = .ok (some "gemini-2.5-flash-lite")
    ∧ streamResolvedModel ⟨PName.google, true, none, fun _ => "gemini-2.5-flash-lite"⟩
        (some "gemini-3-pro-preview") "hi"
      = .ok (some "gemini-2.5-flash-lite")
    ∧ (∀ m2, chatResolvedModel
          ⟨PName.google, true, none, fun _ => "gemini-2.5-flash-lite"⟩
          (some "gemini-3-pro-preview") "hi"
        = chatResolvedModel
          ⟨PName.google, true, none, fun _ => "gemini-2.5-flash-lite"⟩ m2 "hi"
      ∧ streamResolvedModel
          ⟨PName.google, true, none, fun _ => "gemini-2.5-flash-lite"⟩
          (some "gemini-3-pro-preview") "hi"
        = streamResolvedModel
          ⟨PName.google, true, none, fun _ => "gemini-2.5-flash-lite"⟩ m2 "hi") :=
  smart_routing_ignores_model PName.google "key" none
    (fun _ => "gemini-2.5-flash-lite") _ rfl (some "gemini-3-pro-preview") "hi"

/-!
## Router artifact cache (src/orkestra/router/cache.py)

File-system and network effects are embedded as an explicit state
`CacheWorld`: the content (if any) at the cache path, at the temporary
download path, what the remote store would deliver (`none` = network
failure), and the content (if any) of the local development fallback.
SHA-256 is abstracted as the function argument `hash`.
-/

/-- One `ROUTER_MANIFEST` entry. -/
structure ManifestEntry : Type where
  url : String
  sha256 : String
  filename : String
  version : String
deriving DecidableEq, Repr

/-- `ROUTER_MANIFEST` from src/orkestra/router/cache.py. -/
def ROUTER_MANIFEST : List (PName × ManifestEntry) :=
  [(PName.google,
      ⟨"http://imperativemachines.com/routers/router-google.pkl",
        "11358e8d3417f33f2d8c3d8487990c86c6e5017310dd2840cd52305597b03ccb",
        "router-google.pkl", "0.2.0"⟩),
   (PName.anthropic,
      ⟨"http://imperativemachines.com/routers/router-anthropic.pkl",
        "0a7a58c43245fcd30600e629cee4dbd848ade65e74dedf18582a1f451bdf1d18",
        "router-anthropic.pkl", "0.2.0"⟩),
   (PName.openai,
      ⟨"http://imperativemachines.com/routers/router-openai.pkl",
        "916a8241c320e9dfa4917f9b0684debc721f8dd07dc5a9a6b0ad36287458baed",
        "router-openai.pkl", "0.2.0"⟩)]

/-- `CACHE_DIR` as a path prefix string. -/
def CACHE_DIR : String := "~/.orkestra/routers/"

/-- The file-system/network state `get_router_path` interacts with. -/
structure CacheWorld : Type where
  cached : Option String
  tmp : Option String
  remote : Option String
  fallback : Option String
deriving DecidableEq, Repr

/-- The exceptions of the cache module: `ValueError` for an unknown
provider, the download failures, and `FileNotFoundError` when every source
is exhausted. -/
inductive CacheErr : Type
  | valueError
  | networkError
  | checksumMismatch
  | fileNotFound
deriving DecidableEq, Repr

/-- `_download_router`: fetch to the temporary path, verify the SHA-256
hexdigest when the manifest carries one, and only then rename onto the
cache path; any failure deletes the temporary file and propagates. -/
def _download_router (hash : String → String) (provider : PName)
    (w : CacheWorld) : Except CacheErr String × CacheWorld :=
  match ROUTER_MANIFEST.lookup provider with
  | none => (.error .valueError, w)
  | some manifest =>
      match w.remote with
      | none => (.error .networkError, ⟨w.cached, none, w.remote, w.fallback⟩)
      | some bytes =>
          if manifest.sha256 ≠ "" ∧ hash bytes ≠ manifest.sha256 then
            (.error .checksumMismatch, ⟨w.cached, none, w.remote, w.fallback⟩)
          else
            (.ok (CACHE_DIR ++ manifest.filename),
              ⟨some bytes, none, w.remote, w.fallback⟩)

/-- `get_router_path`: cached copy, then verified download (non-`Exception`
interrupts aside, any download failure is swallowed by the
`except Exception: pass`), then local fallback copied into the cache;
`FileNotFoundError` once all three are exhausted. -/
def get_router_path (hash : String → String) (provider : PName)
    (w : CacheWorld) : Except CacheErr String × CacheWorld :=
  match ROUTER_MANIFEST.lookup provider with
  | none => (.error .valueError, w)
  | some manifest =>
      if w.cached.isSome then (.ok (CACHE_DIR ++ manifest.filename), w)
      else if manifest.url ≠ "" then
        match _download_router hash provider w with
        | (.ok p, w') => (.ok p, w')
        | (.error _, w') =>
            match w'.fallback with
            | some c =>
                (.ok (CACHE_DIR ++ manifest.filename),
                  ⟨some c, w'.tmp, w'.remote, w'.fallback⟩)
            | none => (.error .fileNotFound, w')
      else
        match w.fallback with
        | some c =>
            (.ok (CACHE_DIR ++ manifest.filename),
              ⟨some c, w.tmp, w.remote, w.fallback⟩)
        | none => (.error .fileNotFound, w)

/-- Every concrete manifest entry carries a non-empty SHA-256 digest. -/
theorem manifest_sha_nonempty (p : PName) (entry : ManifestEntry)
    (h : ROUTER_MANIFEST.lookup p = some entry) : entry.sha256 ≠ "" := by
  have hmem := lookup_mem h
  simp only [ROUTER_MANIFEST, List.mem_cons, List.not_mem_nil, or_false,
    Prod.mk.injEq] at hmem
  rcases hmem with ⟨_, rfl⟩ | ⟨_, rfl⟩ | ⟨_, rfl⟩ <;> decide

/-- Every concrete manifest entry carries a non-empty URL. -/
theorem manifest_url_nonempty (p : PName) (entry : ManifestEntry)
    (h : ROUTER_MANIFEST.lookup p = some entry) : entry.url ≠ "" := by
  have hmem := lookup_mem h
  simp only [ROUTER_MANIFEST, List.mem_cons, List.not_mem_nil, or_false,
    Prod.mk.injEq] at hmem
  rcases hmem with ⟨_, rfl⟩ | ⟨_, rfl⟩ | ⟨_, rfl⟩ <;> decide

/-- C9: `_download_router` returns a path only when the fetched bytes'
digest equals the manifest digest, and then the cache holds exactly those
bytes and the temporary file is gone; on a digest mismatch it fails with
the checksum error, deleting the temporary download and changing nothing
else. -/
theorem download_router_verified (hash : String → String) (p : PName)
    (entry : ManifestEntry) (hm : ROUTER_MANIFEST.lookup p = some entry)
    (w : CacheWorld) :
    (∀ path w', _download_router hash p w = (.ok path, w') →
      ∃ c, w.remote = some c ∧ hash c = entry.sha256
        ∧ w'.cached = some c ∧ w'.tmp = none
        ∧ path = CACHE_DIR ++ entry.filename)
    ∧ (∀ c, w.remote = some c → hash c ≠ entry.sha256 →
        _download_router hash p w
          = (.error .checksumMismatch, ⟨w.cached, none, w.remote, w.fallback⟩)) := by
  have hsha : entry.sha256 ≠ "" := manifest_sha_nonempty p entry hm
  constructor
  · intro path w' h
    cases hrem : w.remote with
    | none =>
        have heq : _download_router hash p w
            = (.error .networkError, ⟨w.cached, none, w.remote, w.fallback⟩) := by
          simp [_download_router, hm, hrem]
        rw [heq] at h
        simp at h
    | some c =>
        by_cases hv : hash c = entry.sha256
        · have heq : _download_router hash p w
              = (.ok (CACHE_DIR ++ entry.filename),
                  ⟨some c, none, w.remote, w.fallback⟩) := by
            simp [_download_router, hm, hrem, hv]
          rw [heq] at h
          injection h with h1 h2
          injection h1 with h1
          refine ⟨c, rfl, hv, ?_, ?_, h1.symm⟩
          · rw [← h2]
          · rw [← h2]
        · have heq : _download_router hash p w
              = (.error .checksumMismatch,
                  ⟨w.cached, none, w.remote, w.fallback⟩) := by
            simp [_download_router, hm, hrem, hsha, hv]
          rw [heq] at h
          simp at h
  · intro c hc hv
    simp [_download_router, hm, hc, hsha, hv]

/-- Witness for C9: a mismatching digest is rejected and the temporary
file removed. -/
theorem download_router_verified_witness :
    _download_router (fun _ => "deadbeef") PName.google
        ⟨none, none, some "bytes", some "pkl"⟩
      = (.error .checksumMismatch, ⟨none, none, some "bytes", some "pkl"⟩) :=
  (download_router_verified (fun _ => "deadbeef") PName.google
      ⟨"http://imperativemachines.com/routers/router-google.pkl",
        "11358e8d3417f33f2d8c3d8487990c86c6e5017310dd2840cd52305597b03ccb",
        "router-google.pkl", "0.2.0"⟩ rfl
      ⟨none, none, some "bytes", some "pkl"⟩).2 "bytes" rfl (by decide)

/-- C8: `get_router_path` prefers the cached copy (returned unchanged),
then a digest-verified download (stored into the cache), then the local
fallback (copied into the cache); it fails, with `FileNotFoundError`,
exactly when the cache is empty, the download fails (network or digest),
and no fallback exists — an earlier source's failure never surfaces when a
later source succeeds. -/
theorem get_router_path_order (hash : String → String) (p : PName)
    (entry : ManifestEntry) (hm : ROUTER_MANIFEST.lookup p = some entry)
    (w : CacheWorld) :
    (w.cached.isSome →
        get_router_path hash p w = (.ok (CACHE_DIR ++ entry.filename), w))
    ∧ (∀ c, w.cached = none → w.remote = some c → hash c = entry.sha256 →
        get_router_path hash p w
          = (.ok (CACHE_DIR ++ entry.filename), ⟨some c, none, w.remote, w.fallback⟩))
    ∧ (∀ f, w.cached = none →
        (w.remote = none ∨ ∃ c, w.remote = some c ∧ hash c ≠ entry.sha256) →
        w.fallback = some f →
        (get_router_path hash p w).1 = .ok (CACHE_DIR ++ entry.filename)
        ∧ (get_router_path hash p w).2.cached = some f)
    ∧ ((∃ e, (get_router_path hash p w).1 = .error e)
        ↔ (w.cached = none
            ∧ (w.remote = none ∨ ∃ c, w.remote = some c ∧ hash c ≠ entry.sha256)
            ∧ w.fallback = none))
    ∧ (∀ e, (get_router_path hash p w).1 = .error e → e = CacheErr.fileNotFound) := by
  have hsha : entry.sha256 ≠ "" := manifest_sha_nonempty p entry hm
  have hurl : entry.url ≠ "" := manifest_url_nonempty p entry hm
  obtain ⟨cached, tmp, remote, fallback⟩ := w
  cases cached with
  | some c0 =>
      have hres : get_router_path hash p ⟨some c0, tmp, remote, fallback⟩
          = (.ok (CACHE_DIR ++ entry.filename), ⟨some c0, tmp, remote, fallback⟩) := by
        simp [get_router_path, hm]
      refine ⟨fun _ => hres, ?_, ?_, ?_, ?_⟩
      · intro c hc; simp at hc
      · intro f hc; simp at hc
      · constructor
        · rintro ⟨e, he⟩
          rw [hres] at he
          simp at he
        · rintro ⟨hc, _⟩; simp at hc
      · intro e he
        rw [hres] at he
        simp at he
  | none =>
      cases remote with
      | none =>
          cases fallback with
          | some f0 =>
              have hres : get_router_path hash p ⟨none, tmp, none, some f0⟩
                  = (.ok (CACHE_DIR ++ entry.filename),
                      ⟨some f0, none, none, some f0⟩) := by
                simp [get_router_path, hm, hurl, _download_router]
              refine ⟨by simp, ?_, ?_, ?_, ?_⟩
              · intro c _ hc; simp at hc
              · intro f _ _ hf
                simp only [Option.some.injEq] at hf
                subst hf
                rw [hres]
                exact ⟨rfl, rfl⟩
              · constructor
                · rintro ⟨e, he⟩
                  rw [hres] at he
                  simp at he
                · rintro ⟨_, _, hf⟩; simp at hf
              · intro e he
                rw [hres] at he
                simp at he
          | none =>
              have hres : get_router_path hash p ⟨none, tmp, none, none⟩
                  = (.error .fileNotFound, ⟨none, none, none, none⟩) := by
                simp [get_router_path, hm, hurl, _download_router]
              refine ⟨by simp, ?_, ?_, ?_, ?_⟩
              · intro c _ hc; simp at hc
              · intro f _ _ hf; simp at hf
              · constructor
                · intro _
                  exact ⟨rfl, Or.inl rfl, rfl⟩
                · intro _
                  exact ⟨CacheErr.fileNotFound, by rw [hres]⟩
              · intro e he
                rw [hres] at he
                injection he with h
                exact h.symm
      | some c =>
          by_cases hv : hash c = entry.sha256
          · have hres : get_router_path hash p ⟨none, tmp, some c, fallback⟩
                = (.ok (CACHE_DIR ++ entry.filename),
                    ⟨some c, none, some c, fallback⟩) := by
              simp [get_router_path, hm, hurl, _download_router, hv]
            refine ⟨by simp, ?_, ?_, ?_, ?_⟩
            · intro c' _ hc' hv'
              simp only [Option.some.injEq] at hc'
              subst hc'
              exact hres
            · intro f _ hbad _
              rcases hbad with hbad | ⟨c', hc', hv'⟩
              · simp at hbad
              · simp only [Option.some.injEq] at hc'
                subst hc'
                exact absurd hv hv'
            · constructor
              · rintro ⟨e, he⟩
                rw [hres] at he
                simp at he
              · rintro ⟨_, hbad, _⟩
                rcases hbad with hbad | ⟨c', hc', hv'⟩
                · simp at hbad
                · simp only [Option.some.injEq] at hc'
                  subst hc'
                  exact absurd hv hv'
            · intro e he
              rw [hres] at he
              simp at he
          · cases fallback with
            | some f0 =>
                have hres : get_router_path hash p ⟨none, tmp, some c, some f0⟩
                    = (.ok (CACHE_DIR ++ entry.filename),
                        ⟨some f0, none, some c, some f0⟩) := by
                  simp [get_router_path, hm, hurl, _download_router, hsha, hv]
                refine ⟨by simp, ?_, ?_, ?_, ?_⟩
                · intro c' _ hc' hv'
                  simp only [Option.some.injEq] at hc'
                  subst hc'
                  exact absurd hv' hv
                · intro f _ _ hf
                  simp only [Option.some.injEq] at hf
                  subst hf
                  rw [hres]
                  exact ⟨rfl, rfl⟩
                · constructor
                  · rintro ⟨e, he⟩
                    rw [hres] at he
                    simp at he
                  · rintro ⟨_, _, hf⟩; simp at hf
                · intro e he
                  rw [hres] at he
                  simp at he
            | none =>
                have hres : get_router_path hash p ⟨none, tmp, some c, none⟩
                    = (.error .fileNotFound, ⟨none, none, some c, none⟩) := by
                  simp [get_router_path, hm, hurl, _download_router, hsha, hv]
                refine ⟨by simp, ?_, ?_, ?_, ?_⟩
                · intro c' _ hc' hv'
                  simp only [Option.some.injEq] at hc'
                  subst hc'
                  exact absurd hv' hv
                · intro f _ _ hf; simp at hf
                · constructor
                  · intro _
                    exact ⟨rfl, Or.inr ⟨c, rfl, hv⟩, rfl⟩
                  · intro _
                    exact ⟨CacheErr.fileNotFound, by rw [hres]⟩
                · intro e he
                  rw [hres] at he
                  injection he with h
                  exact h.symm

/-- Witness for C8: cache miss plus network failure fall through to the
local fallback, which is copied into the cache. -/
theorem get_router_path_order_witness :
    (get_router_path (fun _ => "deadbeef") PName.google
        ⟨none, none, none, some "pkl"⟩).1
      = .ok (CACHE_DIR ++ "router-google.pkl")
    ∧ (get_router_path (fun _ => "deadbeef") PName.google
        ⟨none, none, none, some "pkl"⟩).2.cached = some "pkl" :=
  ((get_router_path_order (fun _ => "deadbeef") PName.google
      ⟨"http://imperativemachines.com/routers/router-google.pkl",
        "11358e8d3417f33f2d8c3d8487990c86c6e5017310dd2840cd52305597b03ccb",
        "router-google.pkl", "0.2.0"⟩ rfl
      ⟨none, none, none, some "pkl"⟩).2.2.1 "pkl" rfl (Or.inl rfl) rfl)

end Orkestra
